import Mathlib

/-!
Verification of the authenticating embedding gateway shipped as the reference
server templates of `create-enclave` (Go template `src/unnamed/part_000`, Node
template `src/server/node/server.ts`).  Strings and byte slices are embedded as
`List Nat` of character codes; each definition mirrors one source function.
-/

namespace CreateEnclave

/-- Byte strings: Go `string` / `[]byte` values as lists of byte codes. -/
abbrev Bytes := List Nat

/-- Character codes of a Lean string literal, used to transcribe the string
literals appearing in the source. -/
def bytes (s : String) : Bytes := s.data.map Char.toNat

/-! ## CookieCodec

Modelled from the spec: the keyed authentication scheme used by the gateway
(`securecookie.New([]byte(secret), nil)` in the Go template and the
`@fastify/cookie` signer in the Node template) is third-party library code that
is not part of this repository.  Per §4.3 of the spec it is a keyed
authentication scheme: `encode(name, value)` appends a MAC of the value keyed
by the process-wide secret, and `decode` recomputes and compares the MAC,
returning not-ok on any mismatch.  We model the MAC as an ideal (perfectly
collision-free) keyed tag: the tag determines the pair (secret, value) and
never contains the separator byte 46 (the ASCII dot used between the payload
and the signature). -/

/-- Ideal-MAC byte escaping: shifts every byte out of the range of the
separator bytes so that the tag contains neither 46 (the payload separator)
nor 99 (the internal key/value divider). -/
def esc (b : Nat) : Nat := b + 100

/-- Ideal keyed MAC over (secret, value): injective and free of byte 46. -/
def tag (secret value : Bytes) : Bytes :=
  secret.map esc ++ 99 :: value.map esc

/-- `encode`: the signed cookie value, payload then dot then MAC
(the layout used by cookie signers: `value ++ "." ++ mac`). -/
def sign (secret value : Bytes) : Bytes :=
  value ++ 46 :: tag secret value

/-- Split a byte string at its last occurrence of byte 46 (the dot):
returns the part before and the part after, or `none` if no dot occurs. -/
def splitLastDot : Bytes → Option (Bytes × Bytes)
  | [] => none
  | x :: xs =>
    match splitLastDot xs with
    | some (a, b) => some (x :: a, b)
    | none => if x = 46 then some ([], xs) else none

/-- `decode`: split at the last dot, recompute the MAC of the payload with the
given secret and compare; return the payload only on an exact match. -/
def unsign (secret s : Bytes) : Option Bytes :=
  match splitLastDot s with
  | none => none
  | some (a, b) => if b = tag secret a then some a else none

/-! ### Codec lemmas -/

theorem mem_map_esc_ne {l : Bytes} {x : Nat} (h : x ∈ l.map esc) : x ≠ 46 ∧ x ≠ 99 := by
  rcases List.mem_map.mp h with ⟨b, _, rfl⟩
  unfold esc
  omega

theorem not_dot_mem_tag (secret value : Bytes) : 46 ∉ tag secret value := by
  intro h
  unfold tag at h
  rcases List.mem_append.mp h with h | h
  · exact (mem_map_esc_ne h).1 rfl
  · rcases List.mem_cons.mp h with h | h
    · omega
    · exact (mem_map_esc_ne h).1 rfl

theorem splitLastDot_of_not_mem {s : Bytes} (h : 46 ∉ s) : splitLastDot s = none := by
  induction s with
  | nil => rfl
  | cons x xs ih =>
    have hx : x ≠ 46 := fun hc => h (hc ▸ List.mem_cons_self x xs)
    have hxs : 46 ∉ xs := fun hc => h (List.mem_cons_of_mem x hc)
    simp [splitLastDot, ih hxs, hx]

theorem splitLastDot_append {a b : Bytes} (h : 46 ∉ b) :
    splitLastDot (a ++ 46 :: b) = some (a, b) := by
  induction a with
  | nil => simp [splitLastDot, splitLastDot_of_not_mem h]
  | cons x xs ih => simp [splitLastDot, ih]

theorem splitLastDot_eq_none {s : Bytes} (h : splitLastDot s = none) : 46 ∉ s := by
  induction s with
  | nil => simp
  | cons x xs ih =>
    unfold splitLastDot at h
    rcases hs : splitLastDot xs with _ | p <;> rw [hs] at h
    · by_cases hx : x = 46
      · simp [hx] at h
      · intro hm
        rcases List.mem_cons.mp hm with hm | hm
        · exact hx hm.symm
        · exact ih hs hm
    · simp at h

theorem splitLastDot_eq_some {s a b : Bytes} (h : splitLastDot s = some (a, b)) :
    s = a ++ 46 :: b ∧ 46 ∉ b := by
  induction s generalizing a b with
  | nil => simp [splitLastDot] at h
  | cons x xs ih =>
    unfold splitLastDot at h
    rcases hs : splitLastDot xs with _ | ⟨a', b'⟩ <;> rw [hs] at h
    · by_cases hx : x = 46
      · simp [hx] at h
        obtain ⟨rfl, rfl⟩ := h
        subst hx
        exact ⟨rfl, splitLastDot_eq_none hs⟩
      · simp [hx] at h
    · simp at h
      obtain ⟨rfl, rfl⟩ := h
      obtain ⟨hxs, hb⟩ := ih hs
      exact ⟨by rw [hxs]; rfl, hb⟩

theorem splitLastDot_sign (secret value : Bytes) :
    splitLastDot (sign secret value) = some (value, tag secret value) :=
  splitLastDot_append (not_dot_mem_tag secret value)

/-- Unique decomposition of a list at a divider that occurs in neither part
before it. -/
theorem append_divider_inj {d : Nat} :
    ∀ {a a' b b' : Bytes}, d ∉ a → d ∉ a' →
      a ++ d :: b = a' ++ d :: b' → a = a' ∧ b = b' := by
  intro a
  induction a with
  | nil =>
    intro a' b b' _ ha' h
    cases a' with
    | nil => simpa using h
    | cons y ys =>
      simp at h
      obtain ⟨hy, _⟩ := h
      exact absurd (hy ▸ List.mem_cons_self y ys) ha'
  | cons x xs ih =>
    intro a' b b' ha ha' h
    cases a' with
    | nil =>
      simp at h
      obtain ⟨hx, _⟩ := h
      exact absurd (hx ▸ List.mem_cons_self x xs) ha
    | cons y ys =>
      simp at h
      obtain ⟨hxy, h⟩ := h
      have := ih (fun hm => ha (List.mem_cons_of_mem x hm))
        (fun hm => ha' (List.mem_cons_of_mem y hm)) h
      exact ⟨by rw [hxy, this.1], this.2⟩

theorem esc_inj : Function.Injective esc := by
  intro a b h
  unfold esc at h
  omega

theorem tag_inj {k k' v v' : Bytes} (h : tag k v = tag k' v') : k = k' ∧ v = v' := by
  unfold tag at h
  have h99 : ∀ l : Bytes, (99 : Nat) ∉ l.map esc := fun l hm => (mem_map_esc_ne hm).2 rfl
  obtain ⟨h1, h2⟩ := append_divider_inj (h99 k) (h99 k') h
  exact ⟨List.map_injective_iff.mpr esc_inj h1, List.map_injective_iff.mpr esc_inj h2⟩

/-- Soundness and completeness of the codec: decoding succeeds exactly on
genuinely signed values, and recovers the signed payload. -/
theorem unsign_eq_some_iff {k s w : Bytes} : unsign k s = some w ↔ s = sign k w := by
  constructor
  · intro h
    unfold unsign at h
    rcases hs : splitLastDot s with _ | ⟨a, b⟩ <;> rw [hs] at h
    · simp at h
    · by_cases hb : b = tag k a
      · simp [hb] at h
        subst h
        obtain ⟨hsplit, _⟩ := splitLastDot_eq_some hs
        rw [hsplit, hb]
        rfl
      · simp [hb] at h
  · intro h
    subst h
    unfold unsign
    rw [splitLastDot_sign]
    simp

theorem sign_inj {k k' v v' : Bytes} (h : sign k v = sign k' v') : k = k' ∧ v = v' := by
  have h1 := splitLastDot_sign k v
  have h2 := splitLastDot_sign k' v'
  rw [h, h2] at h1
  simp at h1
  obtain ⟨rfl, ht⟩ := h1
  exact ⟨(tag_inj ht.symm).1, rfl⟩

theorem length_sign (k v : Bytes) :
    (sign k v).length = 2 * v.length + k.length + 2 := by
  simp [sign, tag]
  omega

/-- Decoding with a different secret always fails. -/
theorem unsign_other_secret {k k' v : Bytes} (h : k ≠ k') :
    unsign k' (sign k v) = none := by
  rcases hu : unsign k' (sign k v) with _ | w
  · rfl
  · exact absurd (sign_inj (unsign_eq_some_iff.mp hu)).1 h

/-- Altering any single byte of a signed value makes decoding fail. -/
theorem unsign_set_ne {k v : Bytes} {i c : Nat}
    (hne : (sign k v).set i c ≠ sign k v) :
    unsign k ((sign k v).set i c) = none := by
  rcases hu : unsign k ((sign k v).set i c) with _ | w
  · rfl
  · exfalso
    have hw : (sign k v).set i c = sign k w := unsign_eq_some_iff.mp hu
    have hlen : (sign k w).length = (sign k v).length := by
      rw [← hw, List.length_set]
    rw [length_sign, length_sign] at hlen
    have hvw : w.length = v.length := by omega
    have hwv : w = v := by
      by_cases hi : i < v.length
      · -- the flip is inside the payload: the tags coincide
        have hdrop : ((sign k v).set i c).drop (v.length + 1) =
            (sign k v).drop (v.length + 1) := by
          rw [List.drop_set, if_pos (by omega)]
        have h1 : (sign k v).drop (v.length + 1) = tag k v := by
          show (v ++ 46 :: tag k v).drop (v.length + 1) = tag k v
          rw [show v ++ 46 :: tag k v = (v ++ [46]) ++ tag k v by simp]
          exact List.drop_left' (by simp)
        have h2 : (sign k w).drop (v.length + 1) = tag k w := by
          show (w ++ 46 :: tag k w).drop (v.length + 1) = tag k w
          rw [show w ++ 46 :: tag k w = (w ++ [46]) ++ tag k w by simp]
          exact List.drop_left' (by simp [hvw])
        rw [hw, h2] at hdrop
        rw [h1] at hdrop
        exact (tag_inj hdrop).2
      · -- the flip is at the dot or inside the tag: the payloads coincide
        have htake : ((sign k v).set i c).take v.length =
            (sign k v).take v.length := by
          rw [List.set_take]
          exact List.set_eq_of_length_le (by simp; omega)
        have h1 : (sign k v).take v.length = v := by
          show (v ++ 46 :: tag k v).take v.length = v
          exact List.take_left' rfl
        have h2 : (sign k w).take v.length = w := by
          show (w ++ 46 :: tag k w).take v.length = w
          exact List.take_left' hvw
        rw [hw, h2] at htake
        rw [h1] at htake
        exact htake
    rw [hwv] at hw
    exact hne hw

/-! ## AuthGuard

`AuthMiddleware` from the Go template (`src/unnamed/part_000`, lines 325-346):
read the named cookie (absent ⇒ 401), decode it into a string variable whose
zero value is the empty string (a decode error leaves it empty), reject with
401 if the decoded value is empty, otherwise store the decoded token in the
request context and run the next handler. -/

inductive GuardOutcome where
  | rejected (status : Nat)
  | proceed (token : Bytes)
deriving DecidableEq, Repr

/-- Go `AuthMiddleware`: `cookie` is the raw value of the named cookie, or
`none` when the request carries no such cookie. -/
def AuthMiddleware (secret : Bytes) (cookie : Option Bytes) : GuardOutcome :=
  match cookie with
  | none => .rejected 401
  | some val =>
    -- `cookieCoder.Decode(name, val, &authToken)` with error ignored:
    -- on failure authToken keeps its zero value ""
    let authToken := (unsign secret val).getD []
    if authToken = [] then .rejected 401 else .proceed authToken

/-- A protected route behind the Go middleware: the handler runs only when the
guard proceeds, and receives the decoded session token. -/
def protectedRoute (secret : Bytes) (cookie : Option Bytes)
    (handler : Bytes → Bytes) : Bytes :=
  match AuthMiddleware secret cookie with
  | .rejected _ => bytes "Unauthorized"
  | .proceed token => handler token

/-! ## Node `handleProtectedRoute` (src/server/node/server.ts, lines 209-226)

Transcribed statement by statement.  Fastify replies are collected in order;
note that the source has no `return` after either `reply.redirect` call, so
control always falls through to `handler(userAuthToken!)` unless an exception
is thrown. -/

inductive Reply where
  | redirect (target : Bytes)
  | status (code : Nat) (body : Bytes)
  | send (body : Bytes)
deriving DecidableEq, Repr

/-- Outcome of one request to the Node protected route: the replies issued, and
`some arg` when the protected handler was invoked (`arg = none` models the
JavaScript `null` produced by a failed `unsignCookie`). -/
structure NodeOutcome where
  replies : List Reply
  handlerArg : Option (Option Bytes)
deriving DecidableEq, Repr

/-- Node `handleProtectedRoute`.  With no cookie, `request.unsignCookie(undefined)`
throws, so the catch block sends a 500 after the redirect already issued; with a
cookie present, both rejection branches fall through and the handler runs. -/
def handleProtectedRoute (secret : Bytes) (cookie : Option Bytes)
    (uiPath : Bytes) (handlerReply : Option Bytes → Reply) : NodeOutcome :=
  match cookie with
  | none =>
    -- !cookieValue: log + reply.redirect, no return;
    -- then unsignCookie(undefined) throws and the catch sends the 500
    ⟨[.redirect uiPath, .status 500 (bytes "TypeError")], none⟩
  | some val =>
    let r0 : List Reply := if val = [] then [.redirect uiPath] else []
    -- request.unsignCookie(cookieValue).value: null when the signature
    -- does not verify
    let userAuthToken : Option Bytes := unsign secret val
    -- !userAuthToken || userAuthToken == "": log + reply.redirect, no return
    let r1 : List Reply :=
      if userAuthToken = none ∨ userAuthToken = some [] then [.redirect uiPath] else []
    -- handler(userAuthToken!) always runs
    ⟨r0 ++ r1 ++ [handlerReply userAuthToken], some userAuthToken⟩

/-! ## IngressHandler

The Go ingress route (`src/unnamed/part_000`, lines 424-455).  `verify`
abstracts `vaultClient.VerifyEnclaveIngress` and returns the upstream's
`(AuthToken, ExpiresAt)` pair or an error. -/

structure SetCookie where
  name : Bytes
  value : Bytes
  maxAge : Int
  path : Bytes
  httpOnly : Bool
deriving DecidableEq, Repr

inductive IngressResult where
  | clientError (status : Nat)
  | serverError (status : Nat)
  | success (cookie : SetCookie) (redirectStatus : Nat) (redirectTo : Bytes)
deriving DecidableEq, Repr

/-- URL of the SPA entry route: `fmt.Sprintf("%s/ui", enclavePrefix)`. -/
def uiURL (pfx : Bytes) : Bytes := pfx ++ bytes "/ui"

/-- The ingress route handler.  `authToken` is the current service-level token,
`now` the current Unix time; in the model `cookieCoder.Encode` (our `sign`)
is total, so its error branch is unreachable. -/
def ingressHandler (production : Bool) (secret authToken : Bytes)
    (token : Bytes) (verify : Bytes → Except Bytes (Bytes × Int)) (now : Int)
    (cookieName pfx : Bytes) : IngressResult :=
  if !production then
    -- In dev, use the default auth token; expiresIn = 3600
    .success ⟨cookieName, sign secret authToken, 3600, bytes "/", true⟩
      307 (uiURL pfx)
  else if token = [] then
    .clientError 400
  else
    match verify token with
    | .error _ => .serverError 500
    | .ok (st, expiresAt) =>
      .success ⟨cookieName, sign secret st, expiresAt - now, bytes "/", true⟩
        307 (uiURL pfx)

/-! ## SessionManager login loop

`performLogin` (`src/unnamed/part_000`, lines 248-274): on an RPC error the
function panics, and the panic in the ticker goroutine is never recovered, so
it terminates the process.  `loginResult` abstracts the outcome of
`loginClient.LoginAsEmployeePrimary`. -/

structure SessionState where
  authToken : Bytes
deriving DecidableEq, Repr

/-- One login attempt: `.error e` models the unrecovered `panic(err)`. -/
def performLogin (loginResult : Except Bytes Bytes) (st : SessionState) :
    Except Bytes SessionState :=
  match loginResult with
  | .error e => .error e   -- panic(err)
  | .ok tok => .ok ⟨tok⟩   -- AuthToken = loginResp.AuthToken under mu.Lock

/-- The ticker loop (`for range ticker.C { performLogin(conn) }`): each tick's
RPC outcome is consumed in order; a panic aborts the whole loop (and process). -/
def loginLoop : List (Except Bytes Bytes) → SessionState → Except Bytes SessionState
  | [], st => .ok st
  | r :: rs, st =>
    match performLogin r st with
    | .error e => .error e
    | .ok st' => loginLoop rs st'

/-! ## EventSubscriber

`handleWorkflowEvents` (`src/unnamed/part_000`, lines 193-220): for each
message on the channel, attempt to decode a `WorkflowEvent`; on failure log and
`continue`, on success process the event.  `decode` abstracts
`proto.Unmarshal`. -/

structure WorkflowEvent where
  ruleCode : Bytes
  serviceName : Nat
  transactionPayload : Bytes
deriving DecidableEq, Repr

/-- The subscription loop over a finite trace of incoming payloads, returning
the successfully decoded events in dispatch order. -/
def handleWorkflowEvents (decode : Bytes → Option WorkflowEvent) :
    List Bytes → List WorkflowEvent
  | [] => []
  | m :: ms =>
    match decode m with
    | none => handleWorkflowEvents decode ms      -- log and continue
    | some ev => ev :: handleWorkflowEvents decode ms

/-! ## Config

`loadConfig` (`src/unnamed/part_000`, lines 76-148).  `os.Getenv` yields the
empty string for unset variables, so an environment is a record of (possibly
empty) strings. -/

structure Env where
  enclaveName : Bytes
  scailoAPI : Bytes
  portStr : Bytes
  username : Bytes
  password : Bytes
  redisURL : Bytes
  workflowEventsChannel : Bytes
  cookieSignatureSecret : Bytes
deriving DecidableEq, Repr

structure Config where
  enclaveName : Bytes
  scailoAPI : Bytes
  port : Nat
  username : Bytes
  password : Bytes
  redisURL : Bytes
  workflowEventsChannel : Bytes
  cookieSignatureSecret : Bytes
deriving DecidableEq, Repr

/-- `strconv.Atoi` as used by `loadConfig`: the port keeps its zero value
unless the string is a nonempty run of decimal digits. -/
def parsePort (s : Bytes) : Nat :=
  if s ≠ [] ∧ s.all (fun c => 48 ≤ c ∧ c ≤ 57) then
    s.foldl (fun acc c => acc * 10 + (c - 48)) 0
  else 0

/-- `loadConfig`: read every variable, then exit with code 1 if any required
value is missing (empty) or the port is zero. -/
def loadConfig (env : Env) : Except Nat Config :=
  let cfg : Config :=
    { enclaveName := env.enclaveName
      scailoAPI := env.scailoAPI
      port := parsePort env.portStr
      username := env.username
      password := env.password
      redisURL := env.redisURL
      workflowEventsChannel := env.workflowEventsChannel
      cookieSignatureSecret := env.cookieSignatureSecret }
  if cfg.enclaveName = [] ∨ cfg.scailoAPI = [] ∨ cfg.port = 0 ∨
      cfg.username = [] ∨ cfg.password = [] ∨ cfg.redisURL = [] ∨
      cfg.workflowEventsChannel = [] ∨ cfg.cookieSignatureSecret = [] then
    .error 1
  else
    .ok cfg

inductive StartupResult where
  | exits (code : Nat)
  | listening (cfg : Config)
deriving DecidableEq, Repr

/-- `main` up to `router.Run`: `loadConfig` runs first and `os.Exit` fires
before any listener binds. -/
def serverStartup (env : Env) : StartupResult :=
  match loadConfig env with
  | .error c => .exits c
  | .ok cfg => .listening cfg

/-! ## PageRenderer

`replaceBundleCaches` (`src/unnamed/part_000`, lines 277-301) rewrites three
exact asset-reference strings through `IndexPageReplacer`, which is
`strings.ReplaceAll`. -/

/-- `strings.ReplaceAll s pat rep`: replaces every non-overlapping occurrence
of `pat` scanning left to right; with an empty pattern Go inserts `rep` before
every character and at the end. -/
def replaceAll : Bytes → Bytes → Bytes → Bytes
  | s, [], rep => rep ++ s.flatMap (fun c => c :: rep)
  | [], _ :: _, _ => []
  | a :: s, q :: qs, rep =>
    if (q :: qs).isPrefixOf (a :: s) then
      rep ++ replaceAll ((a :: s).drop (q :: qs).length) (q :: qs) rep
    else
      a :: replaceAll s (q :: qs) rep
termination_by s _ _ => s.length
decreasing_by
  · simp only [List.length_cons, List.drop_succ_cons, List.length_drop]
    omega
  · simp only [List.length_cons]
    omega

/-- The script-preload target string,
`<link rel="preload" as="script" href="PFX/resources/dist/js/bundle.src.min.js">`. -/
def preloadTarget (pfx : Bytes) : Bytes :=
  bytes "<link rel=\"preload\" as=\"script\" href=\"" ++ pfx ++
    bytes "/resources/dist/js/bundle.src.min.js\">"

/-- Its cache-busted replacement, with `?v=VERSION` appended to the URL. -/
def preloadBusted (pfx version : Bytes) : Bytes :=
  bytes "<link rel=\"preload\" as=\"script\" href=\"" ++ pfx ++
    bytes "/resources/dist/js/bundle.src.min.js?v=" ++ version ++ bytes "\">"

/-- The script tag target string,
`<script src="PFX/resources/dist/js/bundle.src.min.js"></script>`. -/
def scriptTarget (pfx : Bytes) : Bytes :=
  bytes "<script src=\"" ++ pfx ++
    bytes "/resources/dist/js/bundle.src.min.js\"></script>"

/-- Its cache-busted replacement. -/
def scriptBusted (pfx version : Bytes) : Bytes :=
  bytes "<script src=\"" ++ pfx ++
    bytes "/resources/dist/js/bundle.src.min.js?v=" ++ version ++ bytes "\"></script>"

/-- The stylesheet target string,
`<link rel="stylesheet" href="PFX/resources/dist/css/bundle.css">`. -/
def styleTarget (pfx : Bytes) : Bytes :=
  bytes "<link rel=\"stylesheet\" href=\"" ++ pfx ++ bytes "/resources/dist/css/bundle.css\">"

/-- Its cache-busted replacement. -/
def styleBusted (pfx version : Bytes) : Bytes :=
  bytes "<link rel=\"stylesheet\" href=\"" ++ pfx ++
    bytes "/resources/dist/css/bundle.css?v=" ++ version ++ bytes "\">"

/-- `replaceBundleCaches`: the three substitutions in source order.  `version`
abstracts `time.Now().Format("20060102150405")`, the current timestamp at
second resolution. -/
def replaceBundleCaches (pfx version page : Bytes) : Bytes :=
  let p1 := replaceAll page (preloadTarget pfx) (preloadBusted pfx version)
  let p2 := replaceAll p1 (scriptTarget pfx) (scriptBusted pfx version)
  replaceAll p2 (styleTarget pfx) (styleBusted pfx version)

/-! ### PageRenderer lemmas -/

theorem replaceAll_nil_left (q : Nat) (qs rep : Bytes) :
    replaceAll [] (q :: qs) rep = [] := by
  simp [replaceAll]

theorem replaceAll_cons (a q : Nat) (s qs rep : Bytes) :
    replaceAll (a :: s) (q :: qs) rep =
      if (q :: qs).isPrefixOf (a :: s) then
        rep ++ replaceAll (s.drop qs.length) (q :: qs) rep
      else a :: replaceAll s (q :: qs) rep := by
  rw [replaceAll]
  rfl

/-- A pattern that occurs nowhere in the page is left untouched. -/
theorem replaceAll_id_of_absent {s : Bytes} {q : Nat} {qs : Bytes} (rep : Bytes)
    (h : ¬ (q :: qs) <:+: s) : replaceAll s (q :: qs) rep = s := by
  induction s with
  | nil => exact replaceAll_nil_left q qs rep
  | cons a s ih =>
    have hnp : ¬ (q :: qs).isPrefixOf (a :: s) := by
      intro hpre
      have hpq := List.isPrefixOf_iff_prefix.mp hpre
      exact h hpq.isInfix
    rw [replaceAll_cons, if_neg hnp]
    have hs : ¬ (q :: qs) <:+: s := by
      intro hin
      have hsuf := List.IsSuffix.isInfix (List.suffix_cons a s)
      exact h (hin.trans hsuf)
    rw [ih hs]

/-- Scanning `a ++ pat ++ b`: when no occurrence of the pattern starts inside
`a`, the first replacement fires exactly at the junction and scanning resumes
after it. -/
theorem replaceAll_append {q : Nat} {qs : Bytes} (rep : Bytes) :
    ∀ (a b : Bytes), (∀ j < a.length, ¬ (q :: qs) <+: (a ++ ((q :: qs) ++ b)).drop j) →
      replaceAll (a ++ ((q :: qs) ++ b)) (q :: qs) rep =
        a ++ (rep ++ replaceAll b (q :: qs) rep) := by
  intro a
  induction a with
  | nil =>
    intro b _
    simp only [List.nil_append]
    show replaceAll (q :: (qs ++ b)) (q :: qs) rep = rep ++ replaceAll b (q :: qs) rep
    rw [replaceAll_cons, if_pos (by
      exact List.isPrefixOf_iff_prefix.mpr (List.prefix_append (q :: qs) b))]
    rw [List.drop_left qs b]
  | cons x xs ih =>
    intro b hnone
    have h0 := hnone 0 (by simp)
    simp only [List.drop_zero] at h0
    have hnp : ¬ (q :: qs).isPrefixOf (x :: (xs ++ ((q :: qs) ++ b))) := by
      intro hpre
      refine h0 ?_
      have := List.isPrefixOf_iff_prefix.mp hpre
      simpa using this
    show replaceAll (x :: (xs ++ ((q :: qs) ++ b))) (q :: qs) rep = _
    rw [replaceAll_cons, if_neg hnp]
    rw [ih b (by
      intro j hj
      have := hnone (j + 1) (by simpa using Nat.succ_lt_succ hj)
      simpa using this)]
    rfl

/-- The production branch of the ingress route, as a standalone function:
reject an empty token with 400, surface an upstream verification failure as a
500, and otherwise issue a cookie carrying the verified session token. -/
def productionIngress (secret : Bytes) (token : Bytes)
    (verify : Bytes → Except Bytes (Bytes × Int)) (now : Int)
    (cookieName pfx : Bytes) : IngressResult :=
  if token = [] then
    .clientError 400
  else
    match verify token with
    | .error _ => .serverError 500
    | .ok (st, expiresAt) =>
      .success ⟨cookieName, sign secret st, expiresAt - now, bytes "/", true⟩
        307 (uiURL pfx)

/-! ## Claims -/

/-- C1: the claim says a rejected request never reaches the protected handler.
The Node template's `handleProtectedRoute` (server.ts lines 209-226) has no
`return` after either `reply.redirect`, so a request whose cookie is present
but fails signature verification gets the rejection redirect AND still invokes
the protected handler, with a null token (`handlerArg = some none`). -/
theorem node_guard_runs_handler_after_rejecting :
    handleProtectedRoute (bytes "secret") (some (bytes "garbage"))
        (bytes "/enclave/acme/ui") (fun _ => .send (bytes "data")) =
      ⟨[.redirect (bytes "/enclave/acme/ui"), .send (bytes "data")],
        some none⟩ := by
  decide

/-- C2: decoding a cookie with a secret different from the one that signed it,
or a signed value with any single byte altered, always fails (`unsign` returns
`none`); `unsign` is a total function, so no failure can escape as an
exception into the caller's logic. -/
theorem cookie_codec_tamper_detection (k k' v : Bytes) (i c : Nat)
    (hkk : k ≠ k') (hi : i < (sign k v).length)
    (hc : c ≠ (sign k v).getD i 0) :
    unsign k' (sign k v) = none ∧ unsign k ((sign k v).set i c) = none := by
  refine ⟨unsign_other_secret hkk, ?_⟩
  apply unsign_set_ne
  intro he
  have h1 : ((sign k v).set i c)[i]? = some c := List.getElem?_set_self hi
  rw [he] at h1
  have h2 : (sign k v).getD i 0 = c := by
    rw [List.getD_eq_getElem?_getD, h1]
    rfl
  exact hc h2.symm

theorem cookie_codec_tamper_detection_witness :
    (bytes "key" ≠ bytes "other" ∧ 0 < (sign (bytes "key") (bytes "tok")).length ∧
      (7 : Nat) ≠ (sign (bytes "key") (bytes "tok")).getD 0 0) ∧
    unsign (bytes "other") (sign (bytes "key") (bytes "tok")) = none ∧
    unsign (bytes "key") ((sign (bytes "key") (bytes "tok")).set 0 7) = none :=
  ⟨⟨by decide, by decide, by decide⟩,
    cookie_codec_tamper_detection (bytes "key") (bytes "other") (bytes "tok") 0 7
      (by decide) (by decide) (by decide)⟩

/-- C3: in production, a successful upstream verification of a non-empty
ingress token yields a cookie that decodes (under the same secret) to exactly
the session token returned upstream, with lifetime `expiresAt - now`, path `/`
and the HTTP-only flag, and the response redirects to the enclave's UI entry
route. -/
theorem ingress_production_success (secret authTok tok st : Bytes)
    (verify : Bytes → Except Bytes (Bytes × Int)) (now expiresAt : Int)
    (name pfx : Bytes) (htok : tok ≠ [])
    (hv : verify tok = .ok (st, expiresAt)) :
    ingressHandler true secret authTok tok verify now name pfx =
      .success ⟨name, sign secret st, expiresAt - now, bytes "/", true⟩
        307 (uiURL pfx) ∧
    unsign secret (sign secret st) = some st := by
  constructor
  · simp [ingressHandler, htok, hv]
  · exact unsign_eq_some_iff.mpr rfl

theorem ingress_production_success_witness :
    (bytes "t" ≠ ([] : Bytes) ∧
      (fun _ : Bytes => (Except.ok (bytes "sess", (500 : Int)) : Except Bytes (Bytes × Int))) (bytes "t") =
        .ok (bytes "sess", (500 : Int))) ∧
    ingressHandler true (bytes "k") (bytes "svc") (bytes "t")
        (fun _ => .ok (bytes "sess", (500 : Int))) 100 (bytes "n") (bytes "/enclave/acme") =
      .success ⟨bytes "n", sign (bytes "k") (bytes "sess"), 400, bytes "/", true⟩
        307 (uiURL (bytes "/enclave/acme")) ∧
    unsign (bytes "k") (sign (bytes "k") (bytes "sess")) = some (bytes "sess") := by
  refine ⟨⟨by decide, rfl⟩, ?_⟩
  have h := ingress_production_success (bytes "k") (bytes "svc") (bytes "t") (bytes "sess")
    (fun _ => .ok (bytes "sess", (500 : Int))) 100 500 (bytes "n") (bytes "/enclave/acme")
    (by decide) rfl
  simpa using h

/-- C4: the subscription loop drops a message that fails to decode and keeps
running, so one malformed payload followed by one valid payload dispatches
exactly that one decoded event; in general a malformed message leaves the rest
of the trace's processing unchanged. -/
theorem event_loop_survives_malformed (decode : Bytes → Option WorkflowEvent)
    (bad good : Bytes) (ev : WorkflowEvent) (ms : List Bytes)
    (hbad : decode bad = none) (hgood : decode good = some ev) :
    handleWorkflowEvents decode [bad, good] = [ev] ∧
    handleWorkflowEvents decode (bad :: ms) = handleWorkflowEvents decode ms := by
  constructor
  · simp [handleWorkflowEvents, hbad, hgood]
  · simp [handleWorkflowEvents, hbad]

theorem event_loop_survives_malformed_witness :
    ((fun m : Bytes => if m = [0] then none else some (⟨[], 1, m⟩ : WorkflowEvent)) [0] = none ∧
      (fun m : Bytes => if m = [0] then none else some (⟨[], 1, m⟩ : WorkflowEvent)) [5] =
        some ⟨[], 1, [5]⟩) ∧
    handleWorkflowEvents
        (fun m => if m = [0] then none else some ⟨[], 1, m⟩) [[0], [5]] =
      [⟨[], 1, [5]⟩] ∧
    handleWorkflowEvents (fun m => if m = [0] then none else some ⟨[], 1, m⟩)
        ([0] :: [[9]]) =
      handleWorkflowEvents (fun m => if m = [0] then none else some ⟨[], 1, m⟩) [[9]] := by
  refine ⟨⟨by decide, by decide⟩, ?_⟩
  exact event_loop_survives_malformed _ [0] [5] ⟨[], 1, [5]⟩ [[9]] (by decide) (by decide)

/-- C5: the claim says a failed scheduled (non-initial) login is logged, keeps
the previous token and retries at the next tick.  In the Go template
`performLogin` executes `panic(err)` on any login error, and the panic in the
ticker goroutine is never recovered, so the process crashes: the login loop
aborts at the failed second attempt and the third scheduled login never runs,
instead of continuing with the token obtained at the first attempt. -/
theorem scheduled_login_failure_panics :
    loginLoop [.ok (bytes "tok1"), .error (bytes "rpc unavailable"),
        .ok (bytes "tok2")] ⟨bytes "tok0"⟩ =
      .error (bytes "rpc unavailable") := by
  rfl

/-- C6: in production, when upstream verification of a non-empty ingress token
fails, the response is a 500 server error and no cookie is set (the only
constructor carrying a cookie is `success`, which is not produced). -/
theorem ingress_production_failure (secret authTok tok e : Bytes)
    (verify : Bytes → Except Bytes (Bytes × Int)) (now : Int)
    (name pfx : Bytes) (htok : tok ≠ []) (hv : verify tok = .error e) :
    ingressHandler true secret authTok tok verify now name pfx =
      .serverError 500 ∧
    ∀ c rs rt, ingressHandler true secret authTok tok verify now name pfx ≠
      .success c rs rt := by
  have h : ingressHandler true secret authTok tok verify now name pfx =
      .serverError 500 := by
    simp [ingressHandler, htok, hv]
  exact ⟨h, fun c rs rt hs => by rw [h] at hs; exact IngressResult.noConfusion hs⟩

theorem ingress_production_failure_witness :
    (bytes "bad" ≠ ([] : Bytes) ∧
      (fun _ : Bytes => (Except.error (bytes "denied") : Except Bytes (Bytes × Int))) (bytes "bad") =
        .error (bytes "denied")) ∧
    ingressHandler true (bytes "k") (bytes "svc") (bytes "bad")
        (fun _ => .error (bytes "denied")) 100 (bytes "n") (bytes "/enclave/acme") =
      .serverError 500 := by
  refine ⟨⟨by decide, rfl⟩, ?_⟩
  exact (ingress_production_failure (bytes "k") (bytes "svc") (bytes "bad") (bytes "denied")
    (fun _ => .error (bytes "denied")) 100 (bytes "n") (bytes "/enclave/acme")
    (by decide) rfl).1

/-- C7: with `production = false` the ingress route ignores the token value
entirely: it always issues a signed cookie for the current service-level auth
token with a fixed 3600-second expiry and redirects to the enclave's `/ui`
route.  With `production = true` the handler coincides with
`productionIngress`, which always verifies the token upstream — the dev bypass
never occurs in production. -/
theorem ingress_dev_bypass (secret authTok tok : Bytes)
    (verify : Bytes → Except Bytes (Bytes × Int)) (now : Int)
    (name pfx : Bytes) :
    (ingressHandler false secret authTok tok verify now name pfx =
      .success ⟨name, sign secret authTok, 3600, bytes "/", true⟩
        307 (uiURL pfx) ∧
     unsign secret (sign secret authTok) = some authTok) ∧
    ingressHandler true secret authTok tok verify now name pfx =
      productionIngress secret tok verify now name pfx := by
  refine ⟨⟨by simp [ingressHandler], unsign_eq_some_iff.mpr rfl⟩, ?_⟩
  simp [ingressHandler, productionIngress]

/-- C8: startup exits with code 1 (without ever reaching the listener) when
any required configuration value is empty or the port is zero, and any
configuration that reaches the listening state has every required field
non-empty and a non-zero port. -/
theorem config_validation (env : Env) :
    ((env.enclaveName = [] ∨ env.scailoAPI = [] ∨ parsePort env.portStr = 0 ∨
      env.username = [] ∨ env.password = [] ∨ env.redisURL = [] ∨
      env.workflowEventsChannel = [] ∨ env.cookieSignatureSecret = []) →
      serverStartup env = .exits 1) ∧
    (∀ cfg, serverStartup env = .listening cfg →
      cfg.enclaveName ≠ [] ∧ cfg.scailoAPI ≠ [] ∧ cfg.port ≠ 0 ∧
      cfg.username ≠ [] ∧ cfg.password ≠ [] ∧ cfg.redisURL ≠ [] ∧
      cfg.workflowEventsChannel ≠ [] ∧ cfg.cookieSignatureSecret ≠ []) := by
  constructor
  · intro h
    unfold serverStartup loadConfig
    simp only []
    rw [if_pos (by simpa using h)]
  · intro cfg hl
    unfold serverStartup loadConfig at hl
    simp only [] at hl
    by_cases h : env.enclaveName = [] ∨ env.scailoAPI = [] ∨
        parsePort env.portStr = 0 ∨ env.username = [] ∨ env.password = [] ∨
        env.redisURL = [] ∨ env.workflowEventsChannel = [] ∨
        env.cookieSignatureSecret = []
    · rw [if_pos (by simpa using h)] at hl
      exact absurd hl (by simp)
    · rw [if_neg (by simpa using h)] at hl
      simp at hl
      push_neg at h
      subst hl
      simpa using h

theorem config_validation_witness :
    serverStartup ⟨bytes "acme", bytes "http://api", bytes "8080", [],
        bytes "p", bytes "redis", bytes "wf", bytes "s"⟩ = .exits 1 ∧
    ((bytes "acme" : Bytes) ≠ [] ∧ (bytes "http://api" : Bytes) ≠ [] ∧
      (8080 : Nat) ≠ 0 ∧ (bytes "u" : Bytes) ≠ [] ∧ (bytes "p" : Bytes) ≠ [] ∧
      (bytes "redis" : Bytes) ≠ [] ∧ (bytes "wf" : Bytes) ≠ [] ∧
      (bytes "s" : Bytes) ≠ []) := by
  constructor
  · exact (config_validation _).1 (by right; right; right; left; decide)
  · have h := (config_validation ⟨bytes "acme", bytes "http://api", bytes "8080",
      bytes "u", bytes "p", bytes "redis", bytes "wf", bytes "s"⟩).2
      ⟨bytes "acme", bytes "http://api", 8080, bytes "u", bytes "p",
        bytes "redis", bytes "wf", bytes "s"⟩ (by decide)
    simpa using h

/-- `replaceAll` wrapper lemma for any nonempty pattern. -/
theorem replaceAll_absent {s pat : Bytes} (rep : Bytes) (hp : pat ≠ [])
    (h : ¬ pat <:+: s) : replaceAll s pat rep = s := by
  rcases pat with _ | ⟨q, qs⟩
  · exact absurd rfl hp
  · exact replaceAll_id_of_absent rep h

/-- `replaceAll` scanning wrapper lemma for any nonempty pattern. -/
theorem replaceAll_append_ne {pat : Bytes} (rep : Bytes) (hp : pat ≠ [])
    (a b : Bytes) (h : ∀ j < a.length, ¬ pat <+: (a ++ (pat ++ b)).drop j) :
    replaceAll (a ++ (pat ++ b)) pat rep = a ++ (rep ++ replaceAll b pat rep) := by
  rcases pat with _ | ⟨q, qs⟩
  · exact absurd rfl hp
  · exact replaceAll_append rep a b h

theorem preloadTarget_ne_nil (pfx : Bytes) : preloadTarget pfx ≠ [] := by
  intro h
  rw [preloadTarget, List.append_eq_nil] at h
  exact absurd (List.append_eq_nil.mp h.1).1 (by decide)

theorem scriptTarget_ne_nil (pfx : Bytes) : scriptTarget pfx ≠ [] := by
  intro h
  rw [scriptTarget, List.append_eq_nil] at h
  exact absurd (List.append_eq_nil.mp h.1).1 (by decide)

theorem styleTarget_ne_nil (pfx : Bytes) : styleTarget pfx ≠ [] := by
  intro h
  rw [styleTarget, List.append_eq_nil] at h
  exact absurd (List.append_eq_nil.mp h.1).1 (by decide)

/-- C9: the page renderer's rewrite touches exactly the three fixed asset
reference strings.  First conjunct: if none of the three targets occurs in the
page, the rewrite is the identity (a no-op, not an error; a fortiori each
individual absent target contributes a no-op).  Second conjunct: a page
containing the three targets once each (the side conditions say no occurrence
of a target starts anywhere else) is rewritten to the same page with each
target replaced by its cache-busted form carrying `?v=version`, all
surrounding content untouched. -/
theorem bundle_cache_rewrite (pfx version : Bytes) :
    (∀ page, ¬ preloadTarget pfx <:+: page → ¬ scriptTarget pfx <:+: page →
      ¬ styleTarget pfx <:+: page →
      replaceBundleCaches pfx version page = page) ∧
    (∀ c0 c1 c2 c3,
      (∀ j < c0.length, ¬ preloadTarget pfx <+:
        (c0 ++ (preloadTarget pfx ++ (c1 ++ (scriptTarget pfx ++
          (c2 ++ (styleTarget pfx ++ c3)))))).drop j) →
      (¬ preloadTarget pfx <:+:
        c1 ++ (scriptTarget pfx ++ (c2 ++ (styleTarget pfx ++ c3)))) →
      (∀ j < (c0 ++ (preloadBusted pfx version ++ c1)).length, ¬ scriptTarget pfx <+:
        ((c0 ++ (preloadBusted pfx version ++ c1)) ++ (scriptTarget pfx ++
          (c2 ++ (styleTarget pfx ++ c3)))).drop j) →
      (¬ scriptTarget pfx <:+: c2 ++ (styleTarget pfx ++ c3)) →
      (∀ j < ((c0 ++ (preloadBusted pfx version ++ c1)) ++
          (scriptBusted pfx version ++ c2)).length, ¬ styleTarget pfx <+:
        (((c0 ++ (preloadBusted pfx version ++ c1)) ++
          (scriptBusted pfx version ++ c2)) ++ (styleTarget pfx ++ c3)).drop j) →
      (¬ styleTarget pfx <:+: c3) →
      replaceBundleCaches pfx version
        (c0 ++ (preloadTarget pfx ++ (c1 ++ (scriptTarget pfx ++
          (c2 ++ (styleTarget pfx ++ c3)))))) =
      c0 ++ (preloadBusted pfx version ++ (c1 ++ (scriptBusted pfx version ++
        (c2 ++ (styleBusted pfx version ++ c3)))))) := by
  constructor
  · intro page h1 h2 h3
    simp only [replaceBundleCaches]
    rw [replaceAll_absent _ (preloadTarget_ne_nil pfx) h1,
      replaceAll_absent _ (scriptTarget_ne_nil pfx) h2,
      replaceAll_absent _ (styleTarget_ne_nil pfx) h3]
  · intro c0 c1 c2 c3 h1a h1b h2a h2b h3a h3b
    simp only [replaceBundleCaches]
    rw [replaceAll_append_ne _ (preloadTarget_ne_nil pfx) c0 _ h1a]
    rw [replaceAll_absent _ (preloadTarget_ne_nil pfx) h1b]
    rw [show c0 ++ (preloadBusted pfx version ++ (c1 ++ (scriptTarget pfx ++
        (c2 ++ (styleTarget pfx ++ c3))))) =
      (c0 ++ (preloadBusted pfx version ++ c1)) ++ (scriptTarget pfx ++
        (c2 ++ (styleTarget pfx ++ c3))) by simp [List.append_assoc]]
    rw [replaceAll_append_ne _ (scriptTarget_ne_nil pfx) _ _ h2a]
    rw [replaceAll_absent _ (scriptTarget_ne_nil pfx) h2b]
    rw [show (c0 ++ (preloadBusted pfx version ++ c1)) ++ (scriptBusted pfx version ++
        (c2 ++ (styleTarget pfx ++ c3))) =
      ((c0 ++ (preloadBusted pfx version ++ c1)) ++ (scriptBusted pfx version ++ c2)) ++
        (styleTarget pfx ++ c3) by simp [List.append_assoc]]
    rw [replaceAll_append_ne _ (styleTarget_ne_nil pfx) _ _ h3a]
    rw [replaceAll_absent _ (styleTarget_ne_nil pfx) h3b]
    simp [List.append_assoc]

set_option maxRecDepth 40000 in
theorem bundle_cache_rewrite_witness :
    replaceBundleCaches (bytes "/e") (bytes "7") (bytes "hello") = bytes "hello" ∧
    replaceBundleCaches (bytes "/e") (bytes "7")
        ([] ++ (preloadTarget (bytes "/e") ++ ([] ++ (scriptTarget (bytes "/e") ++
          ([] ++ (styleTarget (bytes "/e") ++ [])))))) =
      [] ++ (preloadBusted (bytes "/e") (bytes "7") ++
        ([] ++ (scriptBusted (bytes "/e") (bytes "7") ++
          ([] ++ (styleBusted (bytes "/e") (bytes "7") ++ []))))) := by
  constructor
  · exact (bundle_cache_rewrite (bytes "/e") (bytes "7")).1 (bytes "hello")
      (by decide) (by decide) (by decide)
  · exact (bundle_cache_rewrite (bytes "/e") (bytes "7")).2 [] [] [] []
      (by decide) (by decide) (by decide) (by decide) (by decide) (by decide)

/-- C10: before the first login completes the service-level token is the empty
string; a dev-mode ingress in that window sets a cookie whose signed payload is
empty, and the Go AuthGuard rejects any protected request bearing that cookie
(the decoded value is empty), so the handler behind the guard never runs with
such a session. -/
theorem prelogin_dev_session_never_passes_guard (secret tok : Bytes)
    (verify : Bytes → Except Bytes (Bytes × Int)) (now : Int)
    (name pfx : Bytes) :
    ingressHandler false secret [] tok verify now name pfx =
      .success ⟨name, sign secret [], 3600, bytes "/", true⟩ 307 (uiURL pfx) ∧
    unsign secret (sign secret []) = some [] ∧
    AuthMiddleware secret (some (sign secret [])) = .rejected 401 ∧
    ∀ handler, protectedRoute secret (some (sign secret [])) handler =
      bytes "Unauthorized" := by
  have hdec : unsign secret (sign secret []) = some [] := unsign_eq_some_iff.mpr rfl
  have hguard : AuthMiddleware secret (some (sign secret [])) = .rejected 401 := by
    simp [AuthMiddleware, hdec]
  refine ⟨by simp [ingressHandler], hdec, hguard, ?_⟩
  intro handler
  simp [protectedRoute, hguard]

end CreateEnclave
